import Mathlib

/-!
Formal model of `sklift/metrics/metrics.py` (scikit-uplift).

Conventions of the shallow embedding:
* outcomes (`y_true`) and predicted uplift scores (`uplift`) are lists of `ℚ`
  (exact rationals standing for the numeric arrays);
* the binary `treatment` column is a `List Bool` (`true` = treated = 1,
  `false` = control = 0), per the data model which fixes treatment to 0/1;
* `np.divide (..., out=np.zeros_like _, where d ≠ 0)` is the guarded division
  `safeDiv` (0 whenever the denominator is 0), so in this exact model no
  NaN/inf value can arise where the source guards the division;
* numpy fancy indexing is `Option`-valued: an out-of-bounds index yields
  `none`, modelling the `IndexError` the source would raise;
* `np.argsort (kind := mergesort)` is a stable ascending sort of the index
  list; the source then reverses it with `[::-1]`.
-/

/-- Guarded division modelling `np.divide(a, b, out=np.zeros_like a, where b ≠ 0)`:
the quotient where the denominator is nonzero and exactly 0 where it is 0. -/
def safeDiv (a b : ℚ) : ℚ := if b = 0 then 0 else a / b

/-- Ordering used by the stable ascending `np.argsort(uplift, kind="mergesort")`:
index `i` precedes `j` when its score is smaller, ties broken by original
position (stability of mergesort). -/
def rankRel (s : List ℚ) (i j : ℕ) : Prop :=
  s.getD i 0 < s.getD j 0 ∨ (s.getD i 0 = s.getD j 0 ∧ i ≤ j)

instance (s : List ℚ) : DecidableRel (rankRel s) := fun _ _ => by
  unfold rankRel; infer_instance

instance (s : List ℚ) : IsTotal ℕ (rankRel s) where
  total i j := by
    unfold rankRel
    rcases lt_trichotomy (s.getD i 0) (s.getD j 0) with h | h | h
    · exact Or.inl (Or.inl h)
    · rcases le_total i j with hij | hij
      · exact Or.inl (Or.inr ⟨h, hij⟩)
      · exact Or.inr (Or.inr ⟨h.symm, hij⟩)
    · exact Or.inr (Or.inl h)

instance (s : List ℚ) : IsTrans ℕ (rankRel s) where
  trans i j k hij hjk := by
    unfold rankRel at hij hjk ⊢
    rcases hij with h1 | ⟨e1, l1⟩ <;> rcases hjk with h2 | ⟨e2, l2⟩
    · exact Or.inl (h1.trans h2)
    · exact Or.inl (e2 ▸ h1)
    · exact Or.inl (by rw [e1]; exact h2)
    · exact Or.inr ⟨e1.trans e2, l1.trans l2⟩

/-- Model of `np.argsort(uplift, kind="mergesort")[::-1]` (metrics.py line 32
and line 88): the stable ascending argsort of the scores, reversed, giving the
descending ranking the curve builders use.  `List.insertionSort` is a stable
sort, and with the positional tie-break baked into `rankRel` the result is the
unique sorted permutation, exactly numpy's. -/
def descIndices (s : List ℚ) : List ℕ :=
  (List.insertionSort (rankRel s) (List.range s.length)).reverse

/-- Fancy-index a list by a list of positions (`xs[perm]` for a permutation of
in-range positions).  Out-of-range positions fall back to the default; the
theorems only ever use it with in-range index lists. -/
def permute {α : Type} (xs : List α) (d : α) (p : List ℕ) : List α :=
  p.map fun i => xs.getD i d

/-- Model of `y_true_trmnt = y_true.copy(); y_true_trmnt[treatment == 0] = 0`:
the outcome column with control-group entries zeroed. -/
def maskTreated (y : List ℚ) (t : List Bool) : List ℚ :=
  List.zipWith (fun yi ti => if ti then yi else 0) y t

/-- Model of `y_true_ctrl = y_true.copy(); y_true_ctrl[treatment == 1] = 0`:
the outcome column with treated-group entries zeroed. -/
def maskCtrl (y : List ℚ) (t : List Bool) : List ℚ :=
  List.zipWith (fun yi ti => if ti then 0 else yi) y t

/-- The treatment column read as numbers (0/1), as `stable_cumsum(treatment)`
consumes it. -/
def indicatorQ (t : List Bool) : List ℚ :=
  t.map fun b => if b then 1 else 0

/-- Running-sum accumulator for `cumsum`. -/
def cumsumAux (acc : ℚ) : List ℚ → List ℚ
  | [] => []
  | x :: xs => (acc + x) :: cumsumAux (acc + x) xs

/-- Model of `sklearn.utils.extmath.stable_cumsum` (an inclusive prefix sum;
the numerical-stability check is the identity in exact arithmetic). -/
def cumsum (xs : List ℚ) : List ℚ := cumsumAux 0 xs

/-- Model of numpy integer indexing `xs[i]` with a possibly negative `i`:
negative indices count from the end, and an out-of-bounds index is `none`
(an `IndexError` in the source). -/
def npIndex {α : Type} (xs : List α) (i : ℤ) : Option α :=
  if 0 ≤ i then xs[i.toNat]?
  else if (-i).toNat ≤ xs.length then xs[xs.length - (-i).toNat]? else none

/-- Model of fancy indexing `xs[threshold_indices]`: gather the entries at all
the given (possibly negative) positions, failing (`IndexError`) if any is out
of bounds. -/
def gatherAt (xs : List ℚ) : List ℤ → Option (List ℚ)
  | [] => some []
  | i :: is =>
    match npIndex xs i, gatherAt xs is with
    | some v, some vs => some (v :: vs)
    | _, _ => none

/-- Model of
`threshold_indices = np.r_[np.where(np.diff(uplift))[0], uplift.size - 1]`
(metrics.py lines 40-41 and 98-99) over the already sorted scores: the indices
where consecutive sorted scores differ, then the final index `size - 1`.
Note that on an empty input the appended value is `-1`. -/
def thresholds (s : List ℚ) : List ℤ :=
  ((List.range (s.length - 1)).filter
      (fun i => decide (s.getD i 0 ≠ s.getD (i + 1) 0))).map (fun (i : ℕ) => (i : ℤ))
    ++ [(s.length : ℤ) - 1]

/-- The threshold positions as naturals; agrees with `thresholds` whenever the
score list is nonempty. -/
def natThresholds (s : List ℚ) : List ℕ :=
  (List.range (s.length - 1)).filter
      (fun i => decide (s.getD i 0 ≠ s.getD (i + 1) 0))
    ++ [s.length - 1]

/-- Model of `uplift_curve(y_true, uplift, treatment)` (metrics.py lines 31-60):
stable-descending ranking by score, masked per-group cumulative sums gathered
at the threshold positions, guarded per-capita rate difference scaled by the
population seen so far, and the (0, 0) prepend.  Returns `none` exactly where
the source raises (out-of-bounds threshold index, i.e. the empty input). -/
def uplift_curve (y s : List ℚ) (t : List Bool) : Option (List ℤ × List ℚ) :=
  let p := descIndices s
  let yr := permute y 0 p
  let sr := permute s 0 p
  let tr := permute t false p
  let yTm := maskTreated yr tr
  let yCm := maskCtrl yr tr
  let thr := thresholds sr
  match gatherAt (cumsum (indicatorQ tr)) thr,
        gatherAt (cumsum yTm) thr, gatherAt (cumsum yCm) thr with
  | some numTrmnt, some yT, some yC =>
    let numAll : List ℤ := thr.map (fun i => i + 1)
    let numAllQ : List ℚ := numAll.map (fun (i : ℤ) => (i : ℚ))
    let numCtrl : List ℚ := List.zipWith (fun a b => a - b) numAllQ numTrmnt
    let rateT := List.zipWith safeDiv yT numTrmnt
    let rateC := List.zipWith safeDiv yC numCtrl
    let diffs := List.zipWith (fun a b => a - b) rateT rateC
    let vals := List.zipWith (fun a b => a * b) diffs numAllQ
    if numAll = [] ∨ ¬ vals.getD 0 0 = 0 ∨ ¬ numAll.getD 0 0 = 0 then
      some (0 :: numAll, 0 :: vals)
    else
      some (numAll, vals)
  | _, _, _ => none

/-- Model of `qini_curve(y_true, uplift, treatment)` (metrics.py lines 85-116):
identical ranking, masking and threshold machinery; the value is the treated
cumulative outcome minus the control cumulative outcome rescaled by the
guarded treated/control count ratio. -/
def qini_curve (y s : List ℚ) (t : List Bool) : Option (List ℤ × List ℚ) :=
  let p := descIndices s
  let yr := permute y 0 p
  let sr := permute s 0 p
  let tr := permute t false p
  let yTm := maskTreated yr tr
  let yCm := maskCtrl yr tr
  let thr := thresholds sr
  match gatherAt (cumsum (indicatorQ tr)) thr,
        gatherAt (cumsum yTm) thr, gatherAt (cumsum yCm) thr with
  | some numTrmnt, some yT, some yC =>
    let numAll : List ℤ := thr.map (fun i => i + 1)
    let numAllQ : List ℚ := numAll.map (fun (i : ℤ) => (i : ℚ))
    let numCtrl : List ℚ := List.zipWith (fun a b => a - b) numAllQ numTrmnt
    let ratio := List.zipWith safeDiv numTrmnt numCtrl
    let vals := List.zipWith (fun a b => a - b) yT (List.zipWith (fun a b => a * b) yC ratio)
    if numAll = [] ∨ ¬ vals.getD 0 0 = 0 ∨ ¬ numAll.getD 0 0 = 0 then
      some (0 :: numAll, 0 :: vals)
    else
      some (numAll, vals)
  | _, _, _ => none


/-- Numeric kind of the `k` argument, as `np.asarray(k).dtype.kind` classifies
it in the source: an integer (kind `i`), a float (kind `f`), or any other
kind (bool, complex, ...). -/
inductive KVal : Type
  | int (v : ℤ)
  | float (q : ℚ)
  | otherKind

deriving instance DecidableEq for KVal

/-- The `average` argument: the two recognized strategies, or any other value
(rejected with the configuration error). -/
inductive Avg : Type
  | first
  | group
  | unrecognized

deriving instance DecidableEq for Avg

/-- Outcomes of `uplift_at_k` other than a finite score.  `nanMean` stands for
the NaN that `np.mean` of an empty selection produces (numpy warns rather than
raises; it is surfaced here as a distinguished outcome). -/
inductive UErr : Type
  | lengthMismatch
  | configErr
  | indexErr
  | kRange
  | kKind
  | capCtrl
  | capTrmnt
  | nanMean

deriving instance DecidableEq for UErr

/-- Model of `np.unique(treatment, return_counts=True)` applied to the
Bool-valued treatment column: the counts of the distinct values present, in
ascending value order (control = 0 first). -/
def tCounts (t : List Bool) : List ℕ :=
  (if t.contains false then [t.count false] else []) ++
    (if t.contains true then [t.count true] else [])

/-- Mean of a selection; `none` models the NaN that `np.mean` yields on an
empty selection. -/
def meanQ (xs : List ℚ) : Option ℚ :=
  if xs.length = 0 then none else some (xs.sum / xs.length)

/-- Scoring body of `average = first` (metrics.py lines 206-208): restrict to
the first `nSize` subjects of the ranked order, then take each group's mean
outcome inside that pooled window. -/
def firstModeScore (y : List ℚ) (t : List Bool) (ord : List ℕ) (nSize : ℕ) :
    Except UErr ℚ :=
  let w := ((permute y 0 ord).zip (permute t false ord)).take nSize
  match meanQ ((w.filter (fun p => !p.2)).map Prod.fst),
        meanQ ((w.filter (fun p => p.2)).map Prod.fst) with
  | some c, some tm => .ok (tm - c)
  | _, _ => .error .nanMean

/-- Scoring body of `average = group` (metrics.py lines 229-231): take the
first `nCtrl` control subjects and the first `nTrmnt` treated subjects of the
ranked order separately, and average each selection. -/
def groupModeScore (y : List ℚ) (t : List Bool) (ord : List ℕ)
    (nCtrl nTrmnt : ℕ) : Except UErr ℚ :=
  let pr := (permute y 0 ord).zip (permute t false ord)
  match meanQ (((pr.filter (fun p => !p.2)).map Prod.fst).take nCtrl),
        meanQ (((pr.filter (fun p => p.2)).map Prod.fst).take nTrmnt) with
  | some c, some tm => .ok (tm - c)
  | _, _ => .error .nanMean

/-- Model of `uplift_at_k(y_true, uplift, treatment, k, average)` (metrics.py
lines 155-231).  The order of checks follows the source: consistent lengths,
recognized `average`, then `np.unique(treatment, return_counts=True)` is read
at positions 0 and 1 (an `IndexError` when fewer than two distinct treatment
values occur), then the `k` range and kind checks, then the windowed means.
The ranked order reuses the descending argsort model of the curves; the
source uses numpy's default unstable sort here, so the order of tied scores
is not pinned by the source, and no theorem below depends on it. -/
def uplift_at_k (y s : List ℚ) (t : List Bool) (k : KVal) (avg : Avg) :
    Except UErr ℚ :=
  if y.length = s.length ∧ s.length = t.length then
    match avg with
    | .unrecognized => .error .configErr
    | _ =>
      let n := y.length
      let ord := descIndices s
      match (tCounts t)[0]?, (tCounts t)[1]? with
      | some nCtrlTot, some nTrmntTot =>
        match k with
        | .int kv =>
          if (n : ℤ) ≤ kv ∨ kv ≤ 0 then .error .kRange
          else
            match avg with
            | .first => firstModeScore y t ord kv.toNat
            | _ =>
              if nCtrlTot < kv.toNat then .error .capCtrl
              else if nTrmntTot < kv.toNat then .error .capTrmnt
              else groupModeScore y t ord kv.toNat kv.toNat
        | .float q =>
          if q ≤ 0 ∨ 1 ≤ q then .error .kRange
          else
            match avg with
            | .first => firstModeScore y t ord (Int.toNat ⌈(n : ℚ) * q⌉)
            | _ =>
              let nc := Int.toNat ⌈(t.count false : ℚ) * q⌉
              let nt := Int.toNat ⌈(t.count true : ℚ) * q⌉
              if nCtrlTot < nc then .error .capCtrl
              else if nTrmntTot < nt then .error .capTrmnt
              else groupModeScore y t ord nc nt
        | .otherKind => .error .kKind
      | _, _ => .error .indexErr
  else .error .lengthMismatch

/-- Mean outcome of group `g` among the first `m` subjects of the ranked
order, taken as exactly 0 when the group has no member there.  This is the
claim-side reading of the guarded cumulative mean. -/
def groupMeanUpTo (yr : List ℚ) (tr : List Bool) (g : Bool) (m : ℕ) : ℚ :=
  let w := ((yr.zip tr).take m).filter (fun p => p.2 == g)
  if w.length = 0 then 0 else (w.map Prod.fst).sum / w.length

/-- Outcomes of the treated subjects, in input order. -/
def treatedVals (y : List ℚ) (t : List Bool) : List ℚ :=
  ((y.zip t).filter (fun p => p.2)).map Prod.fst

/-- Outcomes of the control subjects, in input order. -/
def ctrlVals (y : List ℚ) (t : List Bool) : List ℚ :=
  ((y.zip t).filter (fun p => !p.2)).map Prod.fst

/-- Validity domain of `k` per the spec: an integer strictly between 0 and N,
or a fraction strictly between 0 and 1; any other numeric kind is always
invalid. -/
def kInvalid (k : KVal) (n : ℕ) : Prop :=
  match k with
  | .int kv => ¬ (0 < kv ∧ kv < (n : ℤ))
  | .float q => ¬ (0 < q ∧ q < 1)
  | .otherKind => True

/-- Membership in the spec's k-domain range-error class (section 7 of the
spec folds the unrecognized-kind rejection into the k range error). -/
def isKDomainErr (e : UErr) : Prop := e = .kRange ∨ e = .kKind


/-- Pointwise value of the uplift curve at a threshold position `c` of the
ranked order (derived closed form of metrics.py lines 51-52). -/
def upliftValAt (yr : List ℚ) (tr : List Bool) (c : ℕ) : ℚ :=
  (safeDiv ((cumsum (maskTreated yr tr)).getD c 0) ((cumsum (indicatorQ tr)).getD c 0)
      - safeDiv ((cumsum (maskCtrl yr tr)).getD c 0)
          (((c : ℚ) + 1) - (cumsum (indicatorQ tr)).getD c 0))
    * ((c : ℚ) + 1)

/-- Pointwise value of the qini curve at a threshold position `c` of the
ranked order (derived closed form of metrics.py line 109). -/
def qiniValAt (yr : List ℚ) (tr : List Bool) (c : ℕ) : ℚ :=
  (cumsum (maskTreated yr tr)).getD c 0
    - (cumsum (maskCtrl yr tr)).getD c 0
        * safeDiv ((cumsum (indicatorQ tr)).getD c 0)
            (((c : ℚ) + 1) - (cumsum (indicatorQ tr)).getD c 0)

/-- Ranking order the code actually produces: strictly higher score first,
tied scores in reverse original order (a stable ascending sort that is then
reversed). -/
def descRel (s : List ℚ) (i j : ℕ) : Prop :=
  s.getD j 0 < s.getD i 0 ∨ (s.getD i 0 = s.getD j 0 ∧ j ≤ i)

lemma length_permute {α : Type} (xs : List α) (d : α) (p : List ℕ) :
    (permute xs d p).length = p.length := by
  simp [permute]

lemma length_cumsumAux (a : ℚ) (xs : List ℚ) :
    (cumsumAux a xs).length = xs.length := by
  induction xs generalizing a with
  | nil => rfl
  | cons x xs ih => simp [cumsumAux, ih]

lemma length_cumsum (xs : List ℚ) : (cumsum xs).length = xs.length :=
  length_cumsumAux 0 xs

lemma getD_cumsumAux (a : ℚ) (xs : List ℚ) (p : ℕ) (hp : p < xs.length) :
    (cumsumAux a xs).getD p 0 = a + (xs.take (p + 1)).sum := by
  induction xs generalizing a p with
  | nil => simp at hp
  | cons x xs ih =>
    cases p with
    | zero => simp [cumsumAux]
    | succ p =>
      simp only [cumsumAux, List.getD_cons_succ, List.take_succ_cons, List.sum_cons]
      rw [ih (a + x) p (by simpa using hp)]
      ring

lemma getD_cumsum (xs : List ℚ) (p : ℕ) (hp : p < xs.length) :
    (cumsum xs).getD p 0 = (xs.take (p + 1)).sum := by
  rw [cumsum, getD_cumsumAux 0 xs p hp, zero_add]

lemma descIndices_perm (s : List ℚ) :
    (descIndices s).Perm (List.range s.length) :=
  (List.reverse_perm _).trans (List.perm_insertionSort _ _)

lemma length_descIndices (s : List ℚ) : (descIndices s).length = s.length := by
  simpa using (descIndices_perm s).length_eq

lemma mem_descIndices {s : List ℚ} {i : ℕ} (h : i ∈ descIndices s) :
    i < s.length := by
  simpa using (descIndices_perm s).mem_iff.1 h

lemma descIndices_pairwise (s : List ℚ) :
    List.Pairwise (fun i j => rankRel s j i) (descIndices s) := by
  rw [descIndices, List.pairwise_reverse]
  exact List.sorted_insertionSort (rankRel s) (List.range s.length)

lemma natThresholds_ne_nil (s : List ℚ) : natThresholds s ≠ [] := by
  intro h
  have := congrArg List.length h
  simp [natThresholds] at this

lemma mem_natThresholds_lt {s : List ℚ} (hs : s ≠ []) {c : ℕ}
    (hc : c ∈ natThresholds s) : c < s.length := by
  have hn : 1 ≤ s.length := List.length_pos.2 hs
  rcases List.mem_append.1 hc with h | h
  · have := List.mem_range.1 (List.mem_filter.1 h).1
    omega
  · have : c = s.length - 1 := by simpa using h
    omega

lemma thresholds_eq {s : List ℚ} (hs : s ≠ []) :
    thresholds s = (natThresholds s).map (fun (c : ℕ) => (c : ℤ)) := by
  have hn : 1 ≤ s.length := List.length_pos.2 hs
  simp only [thresholds, natThresholds, List.map_append, List.map_cons, List.map_nil]
  congr 1
  simp [Nat.cast_sub hn]

lemma natThresholds_pairwise (s : List ℚ) :
    List.Pairwise (· < ·) (natThresholds s) := by
  rw [natThresholds, List.pairwise_append]
  refine ⟨(List.pairwise_lt_range _).filter _, List.pairwise_singleton _ _, ?_⟩
  intro a ha b hb
  have h1 := List.mem_range.1 (List.mem_filter.1 ha).1
  have h2 : b = s.length - 1 := by simpa using hb
  omega

lemma mem_natThresholds {s : List ℚ} (hs : s ≠ []) {c : ℕ} :
    c ∈ natThresholds s ↔
      c < s.length ∧ (c = s.length - 1 ∨ s.getD c 0 ≠ s.getD (c + 1) 0) := by
  have hn : 1 ≤ s.length := List.length_pos.2 hs
  constructor
  · intro hc
    refine ⟨mem_natThresholds_lt hs hc, ?_⟩
    rcases List.mem_append.1 hc with h | h
    · exact Or.inr (by simpa using (List.mem_filter.1 h).2)
    · exact Or.inl (by simpa using h)
  · rintro ⟨hlt, h | h⟩
    · exact List.mem_append.2 (Or.inr (by simp [h]))
    · by_cases hcl : c = s.length - 1
      · exact List.mem_append.2 (Or.inr (by simp [hcl]))
      · exact List.mem_append.2 (Or.inl (List.mem_filter.2
          ⟨List.mem_range.2 (by omega), by simpa using h⟩))

lemma npIndex_coe {xs : List ℚ} {p : ℕ} (hp : p < xs.length) :
    npIndex xs (p : ℤ) = some (xs.getD p 0) := by
  simp [npIndex, List.getElem?_eq_getElem (by simpa using hp),
    List.getD_eq_getElem xs 0 (by simpa using hp)]

lemma gatherAt_map_coe (xs : List ℚ) (l : List ℕ) (h : ∀ c ∈ l, c < xs.length) :
    gatherAt xs (l.map (fun (c : ℕ) => (c : ℤ))) = some (l.map (fun c => xs.getD c 0)) := by
  induction l with
  | nil => rfl
  | cons c l ih =>
    have h1 : npIndex xs ((c : ℕ) : ℤ) = some (xs.getD c 0) :=
      npIndex_coe (h c (List.mem_cons_self c l))
    have h2 := ih (fun d hd => h d (List.mem_cons_of_mem c hd))
    show (match npIndex xs ((c : ℕ) : ℤ),
              gatherAt xs (l.map fun (d : ℕ) => (d : ℤ)) with
          | some v, some vs => some (v :: vs)
          | _, _ => none)
        = some (xs.getD c 0 :: l.map (fun d => xs.getD d 0))
    rw [h1, h2]

lemma zipWith_map_same {α β γ δ : Type} (f : β → γ → δ) (g : α → β) (h : α → γ)
    (l : List α) :
    List.zipWith f (l.map g) (l.map h) = l.map (fun a => f (g a) (h a)) := by
  induction l with
  | nil => rfl
  | cons a l ih => simp [ih]

lemma getD_map_of_lt {α β : Type} (f : α → β) (l : List α) (dα : α) (dβ : β)
    {j : ℕ} (hj : j < l.length) :
    (l.map f).getD j dβ = f (l.getD j dα) := by
  rw [List.getD_eq_getElem _ _ (by simpa using hj), List.getD_eq_getElem _ _ hj,
    List.getElem_map]

lemma length_maskTreated (y : List ℚ) (t : List Bool) :
    (maskTreated y t).length = min y.length t.length := by
  simp [maskTreated]

lemma length_maskCtrl (y : List ℚ) (t : List Bool) :
    (maskCtrl y t).length = min y.length t.length := by
  simp [maskCtrl]

lemma length_indicatorQ (t : List Bool) : (indicatorQ t).length = t.length := by
  simp [indicatorQ]

lemma uplift_curve_eq (y s : List ℚ) (t : List Bool) (hs : s ≠ []) :
    uplift_curve y s t =
      some (0 :: (natThresholds (permute s 0 (descIndices s))).map
              (fun (c : ℕ) => (c : ℤ) + 1),
            0 :: (natThresholds (permute s 0 (descIndices s))).map
              (upliftValAt (permute y 0 (descIndices s)) (permute t false (descIndices s)))) := by
  have hplen : (descIndices s).length = s.length := length_descIndices s
  have hsrlen : (permute s 0 (descIndices s)).length = s.length := by
    rw [length_permute, hplen]
  have hsrne : permute s 0 (descIndices s) ≠ [] := by
    intro h
    rw [h] at hsrlen
    exact hs (List.length_eq_zero.1 hsrlen.symm)
  have hBlt : ∀ c ∈ natThresholds (permute s 0 (descIndices s)), c < s.length :=
    fun c hc => hsrlen ▸ mem_natThresholds_lt hsrne hc
  have hthr := thresholds_eq hsrne
  have g1 := gatherAt_map_coe (cumsum (indicatorQ (permute t false (descIndices s))))
    (natThresholds (permute s 0 (descIndices s)))
    (fun c hc => by
      rw [length_cumsum, length_indicatorQ, length_permute, hplen]
      exact hBlt c hc)
  have g2 := gatherAt_map_coe
    (cumsum (maskTreated (permute y 0 (descIndices s)) (permute t false (descIndices s))))
    (natThresholds (permute s 0 (descIndices s)))
    (fun c hc => by
      rw [length_cumsum, length_maskTreated, length_permute, length_permute, hplen]
      simpa using hBlt c hc)
  have g3 := gatherAt_map_coe
    (cumsum (maskCtrl (permute y 0 (descIndices s)) (permute t false (descIndices s))))
    (natThresholds (permute s 0 (descIndices s)))
    (fun c hc => by
      rw [length_cumsum, length_maskCtrl, length_permute, length_permute, hplen]
      simpa using hBlt c hc)
  obtain ⟨b0, B2, hB0⟩ :=
    List.exists_cons_of_ne_nil (natThresholds_ne_nil (permute s 0 (descIndices s)))
  simp only [uplift_curve, hthr, g1, g2, g3]
  rw [hB0]
  simp only [List.map_map, Function.comp, zipWith_map_same, List.map_cons,
    List.getD_cons_zero]
  rw [if_pos (Or.inr (Or.inr (by omega)))]
  simp only [upliftValAt, Option.some.injEq, Prod.mk.injEq, List.cons.injEq]
  norm_num
  intro a ha
  simp [upliftValAt, List.getD_eq_getD_get?, List.get?_eq_getElem?]

lemma qini_curve_eq (y s : List ℚ) (t : List Bool) (hs : s ≠ []) :
    qini_curve y s t =
      some (0 :: (natThresholds (permute s 0 (descIndices s))).map
              (fun (c : ℕ) => (c : ℤ) + 1),
            0 :: (natThresholds (permute s 0 (descIndices s))).map
              (qiniValAt (permute y 0 (descIndices s)) (permute t false (descIndices s)))) := by
  have hplen : (descIndices s).length = s.length := length_descIndices s
  have hsrlen : (permute s 0 (descIndices s)).length = s.length := by
    rw [length_permute, hplen]
  have hsrne : permute s 0 (descIndices s) ≠ [] := by
    intro h
    rw [h] at hsrlen
    exact hs (List.length_eq_zero.1 hsrlen.symm)
  have hBlt : ∀ c ∈ natThresholds (permute s 0 (descIndices s)), c < s.length :=
    fun c hc => hsrlen ▸ mem_natThresholds_lt hsrne hc
  have hthr := thresholds_eq hsrne
  have g1 := gatherAt_map_coe (cumsum (indicatorQ (permute t false (descIndices s))))
    (natThresholds (permute s 0 (descIndices s)))
    (fun c hc => by
      rw [length_cumsum, length_indicatorQ, length_permute, hplen]
      exact hBlt c hc)
  have g2 := gatherAt_map_coe
    (cumsum (maskTreated (permute y 0 (descIndices s)) (permute t false (descIndices s))))
    (natThresholds (permute s 0 (descIndices s)))
    (fun c hc => by
      rw [length_cumsum, length_maskTreated, length_permute, length_permute, hplen]
      simpa using hBlt c hc)
  have g3 := gatherAt_map_coe
    (cumsum (maskCtrl (permute y 0 (descIndices s)) (permute t false (descIndices s))))
    (natThresholds (permute s 0 (descIndices s)))
    (fun c hc => by
      rw [length_cumsum, length_maskCtrl, length_permute, length_permute, hplen]
      simpa using hBlt c hc)
  obtain ⟨b0, B2, hB0⟩ :=
    List.exists_cons_of_ne_nil (natThresholds_ne_nil (permute s 0 (descIndices s)))
  simp only [qini_curve, hthr, g1, g2, g3]
  rw [hB0]
  simp only [List.map_map, Function.comp, zipWith_map_same, List.map_cons,
    List.getD_cons_zero]
  rw [if_pos (Or.inr (Or.inr (by omega)))]
  simp only [qiniValAt, Option.some.injEq, Prod.mk.injEq, List.cons.injEq]
  norm_num
  intro a ha
  simp [qiniValAt, List.getD_eq_getD_get?, List.get?_eq_getElem?]

lemma uplift_curve_nil (y : List ℚ) (t : List Bool) : uplift_curve y [] t = none := rfl

lemma qini_curve_nil (y : List ℚ) (t : List Bool) : qini_curve y [] t = none := rfl

/-- C2 (counterexample): on the empty input neither curve returns a first
point (0, 0); the appended threshold index `uplift.size - 1 = -1` is out of
bounds for the empty cumulative-sum arrays, so both functions raise an
`IndexError` (`none` in this model) and the `num_all.size == 0` branch of the
prepend guard is unreachable. -/
theorem curves_empty_input_raise :
    uplift_curve [] [] [] = none ∧ qini_curve [] [] [] = none :=
  ⟨rfl, rfl⟩

/-- C2 (amended): for every non-empty input, both curves return and their
first point is exactly (0, 0); the synthetic leading point is always
prepended because the first natural population count is at least 1. -/
theorem curves_first_point_zero (y s : List ℚ) (t : List Bool) (hs : s ≠ []) :
    ∃ cu vu cq vq, uplift_curve y s t = some (cu, vu) ∧
      qini_curve y s t = some (cq, vq) ∧
      cu.head? = some 0 ∧ vu.head? = some 0 ∧ cq.head? = some 0 ∧ vq.head? = some 0 :=
  ⟨_, _, _, _, uplift_curve_eq y s t hs, qini_curve_eq y s t hs, rfl, rfl, rfl, rfl⟩

/-- Witness for the amended C2 at a concrete non-empty input. -/
theorem curves_first_point_zero_witness :
    (([2, 1] : List ℚ) ≠ []) ∧
    (∃ cu vu cq vq, uplift_curve [1, 0] [2, 1] [true, false] = some (cu, vu) ∧
      qini_curve [1, 0] [2, 1] [true, false] = some (cq, vq) ∧
      cu.head? = some 0 ∧ vu.head? = some 0 ∧ cq.head? = some 0 ∧ vq.head? = some 0) :=
  ⟨by decide, curves_first_point_zero [1, 0] [2, 1] [true, false] (by decide)⟩

/-- C7: whenever either curve returns, its population-count axis is strictly
increasing, the prepended (0, 0) point included. -/
theorem curve_counts_strict_mono (y s : List ℚ) (t : List Bool) :
    (∀ cu vu, uplift_curve y s t = some (cu, vu) → cu.Pairwise (· < ·)) ∧
    (∀ cq vq, qini_curve y s t = some (cq, vq) → cq.Pairwise (· < ·)) := by
  have key : ((0 : ℤ) :: (natThresholds (permute s 0 (descIndices s))).map
      (fun (c : ℕ) => (c : ℤ) + 1)).Pairwise (· < ·) := by
    refine List.pairwise_cons.2 ⟨?_, ?_⟩
    · intro x hx
      obtain ⟨c, _, rfl⟩ := List.mem_map.1 hx
      omega
    · refine List.Pairwise.map _ ?_ (natThresholds_pairwise _)
      intro a b hab
      omega
  constructor
  · intro cu vu h
    rcases eq_or_ne s [] with hs | hs
    · rw [hs, uplift_curve_nil] at h
      cases h
    · rw [uplift_curve_eq y s t hs] at h
      simp only [Option.some.injEq, Prod.mk.injEq] at h
      exact h.1 ▸ key
  · intro cq vq h
    rcases eq_or_ne s [] with hs | hs
    · rw [hs, qini_curve_nil] at h
      cases h
    · rw [qini_curve_eq y s t hs] at h
      simp only [Option.some.injEq, Prod.mk.injEq] at h
      exact h.1 ▸ key

/-- Witness for C7 at a concrete input. -/
theorem curve_counts_strict_mono_witness :
    uplift_curve [1, 0] [2, 1] [true, false] = some ([0, 1, 2], [0, 1, 2]) ∧
      List.Pairwise (· < ·) ([0, 1, 2] : List ℤ) := by
  have he : uplift_curve [1, 0] [2, 1] [true, false] = some ([0, 1, 2], [0, 1, 2]) := by
    norm_num [uplift_curve, descIndices, permute, maskTreated, maskCtrl, indicatorQ,
      cumsum, cumsumAux, thresholds, gatherAt, npIndex, safeDiv, rankRel,
      List.insertionSort, List.orderedInsert, List.range_succ, List.range_zero,
      List.filter_append, List.filter_cons, List.filter_nil]
  exact ⟨he, (curve_counts_strict_mono [1, 0] [2, 1] [true, false]).1 [0, 1, 2] [0, 1, 2] he⟩

/-- C4 (counterexample): with two equal scores the ranking is [1, 0], the
reverse of the original order [0, 1]; the claimed stability (ties keep the
original relative order) fails because `argsort(..., mergesort)[::-1]`
reverses tied runs. -/
theorem descIndices_tie_not_original_order :
    descIndices [(5 : ℚ), 5] = [1, 0] ∧ descIndices [(5 : ℚ), 5] ≠ [0, 1] := by
  have h1 : descIndices [(5 : ℚ), 5] = [1, 0] := rfl
  exact ⟨h1, by rw [h1]; decide⟩

/-- C4 (amended): the ranking permutation is deterministic and sorts the
subjects by score descending, with tied scores in reverse of their original
relative order. -/
theorem descIndices_sorted_desc (s : List ℚ) :
    (descIndices s).Perm (List.range s.length) ∧
      List.Pairwise (descRel s) (descIndices s) := by
  refine ⟨descIndices_perm s, (descIndices_pairwise s).imp ?_⟩
  intro i j h
  rcases h with h | ⟨h, hle⟩
  · exact Or.inl h
  · exact Or.inr ⟨h.symm, hle⟩

lemma rankedS_pairwise (s : List ℚ) :
    List.Pairwise (fun a b => b ≤ a) (permute s 0 (descIndices s)) := by
  rw [permute]
  refine List.Pairwise.map _ ?_ (descIndices_pairwise s)
  intro i j h
  rcases h with h | ⟨h, _⟩
  · exact le_of_lt h
  · exact le_of_eq h

/-- C5: the threshold positions of both curve builders are exactly the ranked
positions where the score changes, plus the last position; consequently no
threshold (hence no curve point population count) separates two positions
holding the same score. -/
theorem curve_thresholds_characterization (y s : List ℚ) (t : List Bool) (hs : s ≠ []) :
    (∃ vu, uplift_curve y s t = some (0 :: (natThresholds (permute s 0 (descIndices s))).map
        (fun (c : ℕ) => (c : ℤ) + 1), vu)) ∧
    (∃ vq, qini_curve y s t = some (0 :: (natThresholds (permute s 0 (descIndices s))).map
        (fun (c : ℕ) => (c : ℤ) + 1), vq)) ∧
    (∀ c, c ∈ natThresholds (permute s 0 (descIndices s)) ↔
        c < s.length ∧ (c = s.length - 1 ∨
          (permute s 0 (descIndices s)).getD c 0 ≠ (permute s 0 (descIndices s)).getD (c + 1) 0)) ∧
    (∀ a b c, a < b → b < s.length →
        (permute s 0 (descIndices s)).getD a 0 = (permute s 0 (descIndices s)).getD b 0 →
        c ∈ natThresholds (permute s 0 (descIndices s)) → ¬ (a ≤ c ∧ c < b)) := by
  have hplen : (descIndices s).length = s.length := length_descIndices s
  have hsrlen : (permute s 0 (descIndices s)).length = s.length := by
    rw [length_permute, hplen]
  have hsrne : permute s 0 (descIndices s) ≠ [] := by
    intro h
    rw [h] at hsrlen
    exact hs (List.length_eq_zero.1 hsrlen.symm)
  refine ⟨⟨_, uplift_curve_eq y s t hs⟩, ⟨_, qini_curve_eq y s t hs⟩, ?_, ?_⟩
  · intro c
    rw [mem_natThresholds hsrne, hsrlen]
  · intro a b c hab hbn heq hc ⟨hac, hcb⟩
    have hmem := (mem_natThresholds hsrne).1 hc
    rw [hsrlen] at hmem
    have hcn : c < s.length := hmem.1
    have hcne : c ≠ s.length - 1 := by omega
    have hdiff : (permute s 0 (descIndices s)).getD c 0
        ≠ (permute s 0 (descIndices s)).getD (c + 1) 0 := hmem.2.resolve_left hcne
    have hsorted := rankedS_pairwise s
    rw [List.pairwise_iff_getElem] at hsorted
    have hle : ∀ i j : ℕ, i ≤ j → j < s.length →
        (permute s 0 (descIndices s)).getD j 0 ≤ (permute s 0 (descIndices s)).getD i 0 := by
      intro i j hij hj
      rcases eq_or_lt_of_le hij with rfl | hij
      · exact le_refl _
      · have hi : i < (permute s 0 (descIndices s)).length := by omega
        have hj2 : j < (permute s 0 (descIndices s)).length := by omega
        have := hsorted i j hi hj2 hij
        rwa [List.getD_eq_getElem _ _ hi, List.getD_eq_getElem _ _ hj2]
    have h1 : (permute s 0 (descIndices s)).getD c 0
        ≤ (permute s 0 (descIndices s)).getD a 0 := hle a c hac (by omega)
    have h2 : (permute s 0 (descIndices s)).getD (c + 1) 0
        ≤ (permute s 0 (descIndices s)).getD c 0 := hle c (c + 1) (by omega) (by omega)
    have h3 : (permute s 0 (descIndices s)).getD b 0
        ≤ (permute s 0 (descIndices s)).getD (c + 1) 0 := hle (c + 1) b (by omega) hbn
    have h4 : (permute s 0 (descIndices s)).getD c 0
        ≤ (permute s 0 (descIndices s)).getD (c + 1) 0 := (heq ▸ h1).trans h3
    exact hdiff (le_antisymm h4 h2)

/-- Witness for C5 at a concrete input (first component of the conclusion). -/
theorem curve_thresholds_characterization_witness :
    ∃ vu, uplift_curve [1, 0] [2, 1] [true, false] =
      some (0 :: (natThresholds (permute [2, 1] 0 (descIndices [2, 1]))).map
        (fun (c : ℕ) => (c : ℤ) + 1), vu) :=
  (curve_thresholds_characterization [1, 0] [2, 1] [true, false] (by decide)).1

lemma maskTreated_all_true : ∀ (y : List ℚ) (t : List Bool), y.length = t.length →
    (∀ b ∈ t, b = true) → maskTreated y t = y
  | [], [], _, _ => rfl
  | [], _ :: _, h, _ => by simp at h
  | _ :: _, [], h, _ => by simp at h
  | a :: y, b :: t, h, hall => by
    have hb : b = true := hall b (by simp)
    have ht2 : ∀ x ∈ t, x = true := fun x hx => hall x (by simp [hx])
    have ih := maskTreated_all_true y t (by simpa using h) ht2
    simp only [maskTreated, List.zipWith_cons_cons, hb, if_true]
    rw [List.cons.injEq]
    exact ⟨rfl, ih⟩

lemma maskCtrl_all_true : ∀ (y : List ℚ) (t : List Bool), y.length = t.length →
    (∀ b ∈ t, b = true) → maskCtrl y t = List.replicate y.length 0
  | [], [], _, _ => rfl
  | [], _ :: _, h, _ => by simp at h
  | _ :: _, [], h, _ => by simp at h
  | a :: y, b :: t, h, hall => by
    have hb : b = true := hall b (by simp)
    have ht2 : ∀ x ∈ t, x = true := fun x hx => hall x (by simp [hx])
    have ih := maskCtrl_all_true y t (by simpa using h) ht2
    simp only [maskCtrl, List.zipWith_cons_cons, hb, if_true, List.length_cons,
      List.replicate_succ]
    rw [List.cons.injEq]
    exact ⟨rfl, ih⟩

lemma indicatorQ_all_true : ∀ (t : List Bool), (∀ b ∈ t, b = true) →
    indicatorQ t = List.replicate t.length 1
  | [], _ => rfl
  | b :: t, hall => by
    have hb : b = true := hall b (by simp)
    have ih := indicatorQ_all_true t (fun x hx => hall x (by simp [hx]))
    simp only [indicatorQ, List.map_cons, hb, if_true, List.length_cons,
      List.replicate_succ]
    rw [List.cons.injEq]
    exact ⟨rfl, ih⟩

lemma cumsumAux_replicate_zero : ∀ (n : ℕ) (a : ℚ),
    cumsumAux a (List.replicate n 0) = List.replicate n a
  | 0, _ => rfl
  | n + 1, a => by
    simp only [List.replicate_succ, cumsumAux, add_zero]
    rw [List.cons.injEq]
    exact ⟨rfl, cumsumAux_replicate_zero n a⟩

lemma getD_cumsum_replicate_zero {n c : ℕ} (h : c < n) :
    (cumsum (List.replicate n (0 : ℚ))).getD c 0 = 0 := by
  rw [cumsum, cumsumAux_replicate_zero]
  rw [List.getD_eq_getElem _ _ (by simpa using h), List.getElem_replicate]

lemma getD_cumsum_replicate_one {n c : ℕ} (h : c < n) :
    (cumsum (List.replicate n (1 : ℚ))).getD c 0 = (c : ℚ) + 1 := by
  rw [getD_cumsum _ _ (by simpa using h), List.take_replicate]
  have hm : min (c + 1) n = c + 1 := by omega
  rw [hm, List.sum_replicate, nsmul_eq_mul, mul_one]
  push_cast
  ring

lemma safeDiv_zero_left (b : ℚ) : safeDiv 0 b = 0 := by
  unfold safeDiv
  split <;> simp

/-- C6: on a non-empty input where every subject is treated, both curves
return (no raise), and every curve value reduces to the cumulative treated
outcome sum: the control group's guarded division contributes exactly 0 at
every threshold, and in this exact model no NaN or infinity can arise. -/
theorem curves_all_treated_safe (y s : List ℚ) (t : List Bool) (hs : s ≠ [])
    (hy : y.length = s.length) (ht : t.length = s.length)
    (hall : ∀ b ∈ t, b = true) :
    uplift_curve y s t = some
      (0 :: (natThresholds (permute s 0 (descIndices s))).map (fun (c : ℕ) => (c : ℤ) + 1),
       0 :: (natThresholds (permute s 0 (descIndices s))).map
         (fun c => ((permute y 0 (descIndices s)).take (c + 1)).sum)) ∧
    qini_curve y s t = some
      (0 :: (natThresholds (permute s 0 (descIndices s))).map (fun (c : ℕ) => (c : ℤ) + 1),
       0 :: (natThresholds (permute s 0 (descIndices s))).map
         (fun c => ((permute y 0 (descIndices s)).take (c + 1)).sum)) := by
  have hplen : (descIndices s).length = s.length := length_descIndices s
  have hyr : (permute y 0 (descIndices s)).length = s.length := by
    rw [length_permute, hplen]
  have htrlen : (permute t false (descIndices s)).length = s.length := by
    rw [length_permute, hplen]
  have hsrlen : (permute s 0 (descIndices s)).length = s.length := by
    rw [length_permute, hplen]
  have hsrne : permute s 0 (descIndices s) ≠ [] := by
    intro h
    rw [h] at hsrlen
    exact hs (List.length_eq_zero.1 hsrlen.symm)
  have htrall : ∀ b ∈ permute t false (descIndices s), b = true := by
    intro b hb
    rw [permute] at hb
    obtain ⟨i, hi, rfl⟩ := List.mem_map.1 hb
    have hilt : i < t.length := ht ▸ mem_descIndices hi
    rw [List.getD_eq_getElem _ _ hilt]
    exact hall _ (List.getElem_mem hilt)
  have hmask1 : maskTreated (permute y 0 (descIndices s)) (permute t false (descIndices s))
      = permute y 0 (descIndices s) :=
    maskTreated_all_true _ _ (by rw [hyr, htrlen]) htrall
  have hmask2 : maskCtrl (permute y 0 (descIndices s)) (permute t false (descIndices s))
      = List.replicate s.length 0 := by
    rw [maskCtrl_all_true _ _ (by rw [hyr, htrlen]) htrall, hyr]
  have hind : indicatorQ (permute t false (descIndices s)) = List.replicate s.length 1 := by
    rw [indicatorQ_all_true _ htrall, htrlen]
  have hpoint : ∀ c ∈ natThresholds (permute s 0 (descIndices s)),
      upliftValAt (permute y 0 (descIndices s)) (permute t false (descIndices s)) c
        = ((permute y 0 (descIndices s)).take (c + 1)).sum ∧
      qiniValAt (permute y 0 (descIndices s)) (permute t false (descIndices s)) c
        = ((permute y 0 (descIndices s)).take (c + 1)).sum := by
    intro c hc
    have hcn : c < s.length := hsrlen ▸ mem_natThresholds_lt hsrne hc
    have hS : (cumsum (maskTreated (permute y 0 (descIndices s))
        (permute t false (descIndices s)))).getD c 0
        = ((permute y 0 (descIndices s)).take (c + 1)).sum := by
      rw [hmask1, getD_cumsum _ _ (by rw [hyr]; exact hcn)]
    have hC : (cumsum (maskCtrl (permute y 0 (descIndices s))
        (permute t false (descIndices s)))).getD c 0 = 0 := by
      rw [hmask2, getD_cumsum_replicate_zero hcn]
    have hN : (cumsum (indicatorQ (permute t false (descIndices s)))).getD c 0
        = (c : ℚ) + 1 := by
      rw [hind, getD_cumsum_replicate_one hcn]
    have hne : ((c : ℚ) + 1) ≠ 0 := by positivity
    constructor
    · rw [upliftValAt, hS, hC, hN, safeDiv_zero_left, sub_zero, safeDiv, if_neg hne,
        div_mul_cancel₀ _ hne]
    · rw [qiniValAt, hS, hC, hN, zero_mul, sub_zero]
  constructor
  · rw [uplift_curve_eq y s t hs,
      List.map_congr_left (fun c hc => (hpoint c hc).1)]
  · rw [qini_curve_eq y s t hs,
      List.map_congr_left (fun c hc => (hpoint c hc).2)]

/-- Witness for C6 at a concrete all-treated input. -/
theorem curves_all_treated_safe_witness :
    (([3, 2] : List ℚ) ≠ [] ∧ ([1, 4] : List ℚ).length = ([3, 2] : List ℚ).length ∧
      ([true, true] : List Bool).length = ([3, 2] : List ℚ).length ∧
      (∀ b ∈ ([true, true] : List Bool), b = true)) ∧
    uplift_curve [1, 4] [3, 2] [true, true] = some
      (0 :: (natThresholds (permute [3, 2] 0 (descIndices [3, 2]))).map
        (fun (c : ℕ) => (c : ℤ) + 1),
       0 :: (natThresholds (permute [3, 2] 0 (descIndices [3, 2]))).map
         (fun c => ((permute [1, 4] 0 (descIndices [3, 2])).take (c + 1)).sum)) :=
  ⟨⟨by decide, by decide, by decide, by decide⟩,
    (curves_all_treated_safe [1, 4] [3, 2] [true, true]
      (by decide) (by decide) (by decide) (by decide)).1⟩

lemma sum_take_maskTreated : ∀ (y : List ℚ) (t : List Bool) (m : ℕ),
    ((maskTreated y t).take m).sum
      = ((((y.zip t).take m).filter (fun p => p.2)).map Prod.fst).sum
  | _, _, 0 => by simp
  | [], _, _ + 1 => by simp [maskTreated]
  | _ :: _, [], _ + 1 => by simp [maskTreated]
  | a :: y, b :: t, m + 1 => by
    have ih := sum_take_maskTreated y t m
    simp only [maskTreated] at ih
    cases b <;>
      simp [maskTreated, List.zip_cons_cons, List.filter_cons, ih]

lemma sum_take_maskCtrl : ∀ (y : List ℚ) (t : List Bool) (m : ℕ),
    ((maskCtrl y t).take m).sum
      = ((((y.zip t).take m).filter (fun p => !p.2)).map Prod.fst).sum
  | _, _, 0 => by simp
  | [], _, _ + 1 => by simp [maskCtrl]
  | _ :: _, [], _ + 1 => by simp [maskCtrl]
  | a :: y, b :: t, m + 1 => by
    have ih := sum_take_maskCtrl y t m
    simp only [maskCtrl] at ih
    cases b <;>
      simp [maskCtrl, List.zip_cons_cons, List.filter_cons, ih]

lemma sum_take_indicatorQ : ∀ (t : List Bool) (m : ℕ),
    ((indicatorQ t).take m).sum = (((t.take m).filter (fun b => b)).length : ℚ)
  | _, 0 => by simp
  | [], _ + 1 => by simp [indicatorQ]
  | b :: t, m + 1 => by
    have ih := sum_take_indicatorQ t m
    simp only [indicatorQ] at ih
    cases b <;> simp [indicatorQ, List.filter_cons, ih] <;> push_cast <;> ring

lemma length_filter_zip_snd (g : Bool → Bool) : ∀ (y : List ℚ) (t : List Bool) (m : ℕ),
    y.length = t.length →
    (((y.zip t).take m).filter (fun p => g p.2)).length = ((t.take m).filter g).length
  | _, _, 0, _ => by simp
  | [], [], _ + 1, _ => by simp
  | [], _ :: _, _ + 1, h => by simp at h
  | _ :: _, [], _ + 1, h => by simp at h
  | a :: y, b :: t, m + 1, h => by
    have ih := length_filter_zip_snd g y t m (by simpa using h)
    simp only [List.zip_cons_cons, List.take_succ_cons, List.filter_cons]
    cases hgb : g b <;> simp [hgb, ih]

lemma filter_bool_split {α : Type} (p : α → Bool) : ∀ (l : List α),
    (l.filter p).length + (l.filter (fun a => !p a)).length = l.length
  | [] => rfl
  | a :: l => by
    have ih := filter_bool_split p l
    cases hpa : p a <;> simp [List.filter_cons, hpa] <;> omega

lemma safeDiv_natCast (s : ℚ) (n : ℕ) :
    safeDiv s (n : ℚ) = if n = 0 then 0 else s / n := by
  rw [safeDiv]
  by_cases h : n = 0 <;> simp [h]

lemma upliftValAt_eq_groupMeans (yr : List ℚ) (tr : List Bool) (c : ℕ)
    (hlen : yr.length = tr.length) (hc : c < tr.length) :
    upliftValAt yr tr c =
      (groupMeanUpTo yr tr true (c + 1) - groupMeanUpTo yr tr false (c + 1))
        * ((c : ℚ) + 1) := by
  have hT : (cumsum (maskTreated yr tr)).getD c 0
      = (((((yr.zip tr).take (c + 1)).filter (fun p => p.2)).map Prod.fst)).sum := by
    rw [getD_cumsum _ _ (by rw [length_maskTreated]; omega), sum_take_maskTreated]
  have hC : (cumsum (maskCtrl yr tr)).getD c 0
      = (((((yr.zip tr).take (c + 1)).filter (fun p => !p.2)).map Prod.fst)).sum := by
    rw [getD_cumsum _ _ (by rw [length_maskCtrl]; omega), sum_take_maskCtrl]
  have hN : (cumsum (indicatorQ tr)).getD c 0
      = (((((yr.zip tr).take (c + 1)).filter (fun p => p.2))).length : ℚ) := by
    rw [getD_cumsum _ _ (by rw [length_indicatorQ]; omega), sum_take_indicatorQ,
      length_filter_zip_snd (fun b => b) yr tr (c + 1) hlen]
  have hzl : ((yr.zip tr).take (c + 1)).length = c + 1 := by
    rw [List.length_take, List.length_zip]
    omega
  have hsplit := filter_bool_split (fun (p : ℚ × Bool) => p.2) ((yr.zip tr).take (c + 1))
  rw [hzl] at hsplit
  have hden : ((c : ℚ) + 1) - ((((yr.zip tr).take (c + 1)).filter (fun p => p.2)).length : ℚ)
      = ((((yr.zip tr).take (c + 1)).filter (fun p => !p.2)).length : ℚ) := by
    have : (((((yr.zip tr).take (c + 1)).filter (fun p => p.2))).length : ℚ)
        + ((((yr.zip tr).take (c + 1)).filter (fun p => !p.2)).length : ℚ) = (c : ℚ) + 1 := by
      exact_mod_cast congrArg (fun (n : ℕ) => (n : ℚ)) hsplit
    linarith
  rw [upliftValAt, hT, hC, hN, hden, safeDiv_natCast, safeDiv_natCast]
  rw [groupMeanUpTo, groupMeanUpTo]
  simp only [beq_true, beq_false]

/-- C1: on every non-empty equal-length input, `uplift_curve` returns, its
population counts are the threshold positions plus one, and each curve value
equals (treated mean so far minus control mean so far) times the population
so far, where each mean is the guarded cumulative group mean (exactly 0 on an
empty group), so in this exact model no NaN or infinity is ever produced. -/
theorem uplift_curve_threshold_value (y s : List ℚ) (t : List Bool) (hs : s ≠ [])
    (hy : y.length = s.length) (ht : t.length = s.length) :
    ∃ vals, uplift_curve y s t =
      some (0 :: (natThresholds (permute s 0 (descIndices s))).map
        (fun (c : ℕ) => (c : ℤ) + 1), vals) ∧
      ∀ j, j < (natThresholds (permute s 0 (descIndices s))).length →
        vals.getD (j + 1) 0 =
          (groupMeanUpTo (permute y 0 (descIndices s)) (permute t false (descIndices s)) true
              ((natThresholds (permute s 0 (descIndices s))).getD j 0 + 1)
            - groupMeanUpTo (permute y 0 (descIndices s)) (permute t false (descIndices s)) false
              ((natThresholds (permute s 0 (descIndices s))).getD j 0 + 1))
          * (((natThresholds (permute s 0 (descIndices s))).getD j 0 : ℚ) + 1) := by
  have hplen : (descIndices s).length = s.length := length_descIndices s
  have hsrlen : (permute s 0 (descIndices s)).length = s.length := by
    rw [length_permute, hplen]
  have hsrne : permute s 0 (descIndices s) ≠ [] := by
    intro h
    rw [h] at hsrlen
    exact hs (List.length_eq_zero.1 hsrlen.symm)
  refine ⟨_, uplift_curve_eq y s t hs, ?_⟩
  intro j hj
  rw [List.getD_cons_succ, getD_map_of_lt _ _ 0 0 hj]
  apply upliftValAt_eq_groupMeans
  · rw [length_permute, length_permute]
  · rw [length_permute, hplen]
    have hmem : (natThresholds (permute s 0 (descIndices s))).getD j 0
        ∈ natThresholds (permute s 0 (descIndices s)) := by
      rw [List.getD_eq_getElem _ _ hj]
      exact List.getElem_mem hj
    exact hsrlen ▸ mem_natThresholds_lt hsrne hmem

/-- Witness for C1 at a concrete input. -/
theorem uplift_curve_threshold_value_witness :
    (([2, 1] : List ℚ) ≠ [] ∧ ([1, 0] : List ℚ).length = ([2, 1] : List ℚ).length ∧
      ([true, false] : List Bool).length = ([2, 1] : List ℚ).length) ∧
    ∃ vals, uplift_curve [1, 0] [2, 1] [true, false] =
      some (0 :: (natThresholds (permute [2, 1] 0 (descIndices [2, 1]))).map
        (fun (c : ℕ) => (c : ℤ) + 1), vals) ∧
      ∀ j, j < (natThresholds (permute [2, 1] 0 (descIndices [2, 1]))).length →
        vals.getD (j + 1) 0 =
          (groupMeanUpTo (permute [1, 0] 0 (descIndices [2, 1]))
              (permute [true, false] false (descIndices [2, 1])) true
              ((natThresholds (permute [2, 1] 0 (descIndices [2, 1]))).getD j 0 + 1)
            - groupMeanUpTo (permute [1, 0] 0 (descIndices [2, 1]))
              (permute [true, false] false (descIndices [2, 1])) false
              ((natThresholds (permute [2, 1] 0 (descIndices [2, 1]))).getD j 0 + 1))
          * (((natThresholds (permute [2, 1] 0 (descIndices [2, 1]))).getD j 0 : ℚ) + 1) :=
  ⟨⟨by decide, by decide, by decide⟩,
    uplift_curve_threshold_value [1, 0] [2, 1] [true, false] (by decide) (by decide) (by decide)⟩

lemma map_getD_range {α : Type} : ∀ (xs : List α) (d : α),
    (List.range xs.length).map (fun i => xs.getD i d) = xs
  | [], _ => rfl
  | a :: xs, d => by
    rw [List.length_cons, List.range_succ_eq_map, List.map_cons, List.map_map]
    rw [List.cons.injEq]
    exact ⟨rfl, map_getD_range xs d⟩

lemma permute_perm {α : Type} (xs : List α) (d : α) {p : List ℕ}
    (hp : p.Perm (List.range xs.length)) : (permute xs d p).Perm xs := by
  rw [permute]
  have h := hp.map (fun i => xs.getD i d)
  rwa [map_getD_range] at h

lemma map_getD_pair : ∀ (y : List ℚ) (t : List Bool), y.length = t.length →
    (List.range y.length).map (fun i => (y.getD i 0, t.getD i false)) = y.zip t
  | [], [], _ => rfl
  | [], _ :: _, h => by simp at h
  | _ :: _, [], h => by simp at h
  | a :: y, b :: t, h => by
    rw [List.length_cons, List.range_succ_eq_map, List.map_cons, List.map_map,
      List.zip_cons_cons]
    rw [List.cons.injEq]
    exact ⟨rfl, map_getD_pair y t (by simpa using h)⟩

lemma permute_zip (y : List ℚ) (t : List Bool) (p : List ℕ) :
    (permute y 0 p).zip (permute t false p)
      = p.map (fun i => (y.getD i 0, t.getD i false)) := by
  rw [permute, permute, List.zip_map']

lemma permute_zip_perm {y : List ℚ} {t : List Bool} {p : List ℕ} {n : ℕ}
    (hy : y.length = n) (ht : t.length = n) (hp : p.Perm (List.range n)) :
    ((permute y 0 p).zip (permute t false p)).Perm (y.zip t) := by
  rw [permute_zip]
  have h := hp.map (fun i => (y.getD i 0, t.getD i false))
  rw [← hy] at h
  rwa [map_getD_pair y t (hy.trans ht.symm)] at h

lemma length_filter_zip_snd_id (y : List ℚ) (t : List Bool) (m : ℕ)
    (h : y.length = t.length) :
    (((y.zip t).take m).filter (fun p => p.2)).length
      = ((t.take m).filter (fun b => b)).length :=
  length_filter_zip_snd (fun b => b) y t m h

lemma qiniValAt_last (yr : List ℚ) (tr : List Bool) (n : ℕ) (hn : 1 ≤ n)
    (hylen : yr.length = n) (htlen : tr.length = n) :
    qiniValAt yr tr (n - 1) =
      (((yr.zip tr).filter (fun p => p.2)).map Prod.fst).sum
        - (((yr.zip tr).filter (fun p => !p.2)).map Prod.fst).sum
          * safeDiv ((((yr.zip tr).filter (fun p => p.2)).length : ℚ))
              ((((yr.zip tr).filter (fun p => !p.2)).length : ℚ)) := by
  have hsub : n - 1 + 1 = n := by omega
  have hzfull : (yr.zip tr).take (n - 1 + 1) = yr.zip tr := by
    rw [hsub]
    exact List.take_of_length_le (by rw [List.length_zip]; omega)
  have htfull : tr.take (n - 1 + 1) = tr := by
    rw [hsub]
    exact List.take_of_length_le (by omega)
  have hT : (cumsum (maskTreated yr tr)).getD (n - 1) 0
      = (((yr.zip tr).filter (fun p => p.2)).map Prod.fst).sum := by
    rw [getD_cumsum _ _ (by rw [length_maskTreated]; omega), sum_take_maskTreated, hzfull]
  have hC : (cumsum (maskCtrl yr tr)).getD (n - 1) 0
      = (((yr.zip tr).filter (fun p => !p.2)).map Prod.fst).sum := by
    rw [getD_cumsum _ _ (by rw [length_maskCtrl]; omega), sum_take_maskCtrl, hzfull]
  have hN : (cumsum (indicatorQ tr)).getD (n - 1) 0
      = ((((yr.zip tr).filter (fun p => p.2)).length : ℚ)) := by
    rw [getD_cumsum _ _ (by rw [length_indicatorQ]; omega), sum_take_indicatorQ,
      ← length_filter_zip_snd_id yr tr (n - 1 + 1) (by omega), hzfull]
  have hsplit := filter_bool_split (fun (p : ℚ × Bool) => p.2) (yr.zip tr)
  rw [List.length_zip, hylen, htlen, min_self] at hsplit
  have hcastsum : (((yr.zip tr).filter (fun p => p.2)).length : ℚ)
      + (((yr.zip tr).filter (fun p => !p.2)).length : ℚ) = (n : ℚ) := by
    exact_mod_cast congrArg (fun (k : ℕ) => (k : ℚ)) hsplit
  have hden : (((n - 1 : ℕ) : ℚ) + 1) - (((yr.zip tr).filter (fun p => p.2)).length : ℚ)
      = (((yr.zip tr).filter (fun p => !p.2)).length : ℚ) := by
    have h2 : ((n - 1 : ℕ) : ℚ) + 1 = (n : ℚ) := by
      rw [Nat.cast_sub hn]
      push_cast
      ring
    rw [h2]
    linarith
  rw [qiniValAt, hT, hC, hN, hden]

lemma qini_last_val (y s : List ℚ) (t : List Bool) (hs : s ≠ [])
    (hy : y.length = s.length) (ht : t.length = s.length) :
    ∃ c v, qini_curve y s t = some (c, v) ∧
      v.getLast? = some ((treatedVals y t).sum
        - (ctrlVals y t).sum
          * safeDiv ((treatedVals y t).length : ℚ) ((ctrlVals y t).length : ℚ)) := by
  have hplen : (descIndices s).length = s.length := length_descIndices s
  have hn : 1 ≤ s.length := List.length_pos.2 hs
  have hyr : (permute y 0 (descIndices s)).length = s.length := by
    rw [length_permute, hplen]
  have htr : (permute t false (descIndices s)).length = s.length := by
    rw [length_permute, hplen]
  have hsrlen : (permute s 0 (descIndices s)).length = s.length := by
    rw [length_permute, hplen]
  refine ⟨_, _, qini_curve_eq y s t hs, ?_⟩
  have hlast : ((0 : ℚ) :: (natThresholds (permute s 0 (descIndices s))).map
      (qiniValAt (permute y 0 (descIndices s)) (permute t false (descIndices s)))).getLast?
      = some (qiniValAt (permute y 0 (descIndices s)) (permute t false (descIndices s))
          ((permute s 0 (descIndices s)).length - 1)) := by
    rw [natThresholds, List.map_append, List.map_singleton, ← List.cons_append,
      List.getLast?_concat]
  rw [hlast, hsrlen, qiniValAt_last _ _ s.length hn hyr htr]
  have hperm : ((permute y 0 (descIndices s)).zip
      (permute t false (descIndices s))).Perm (y.zip t) :=
    permute_zip_perm hy ht (descIndices_perm s)
  have e1 : ((((permute y 0 (descIndices s)).zip (permute t false (descIndices s))).filter
      (fun p => p.2)).map Prod.fst).sum = (treatedVals y t).sum :=
    (List.Perm.map Prod.fst (List.Perm.filter _ hperm)).sum_eq
  have e2 : ((((permute y 0 (descIndices s)).zip (permute t false (descIndices s))).filter
      (fun p => !p.2)).map Prod.fst).sum = (ctrlVals y t).sum :=
    (List.Perm.map Prod.fst (List.Perm.filter _ hperm)).sum_eq
  have e3 : (((permute y 0 (descIndices s)).zip (permute t false (descIndices s))).filter
      (fun p => p.2)).length = (treatedVals y t).length := by
    rw [treatedVals, List.length_map]
    exact (List.Perm.filter _ hperm).length_eq
  have e4 : (((permute y 0 (descIndices s)).zip (permute t false (descIndices s))).filter
      (fun p => !p.2)).length = (ctrlVals y t).length := by
    rw [ctrlVals, List.length_map]
    exact (List.Perm.filter _ hperm).length_eq
  rw [e1, e2, e3, e4]

/-- C3: on every non-empty equal-length input the final qini curve value
equals the whole-input treated outcome sum minus the control outcome sum
rescaled by the guarded treated/control count ratio, and this value is
invariant under any simultaneous permutation of the three input columns. -/
theorem qini_curve_final_value (y s : List ℚ) (t : List Bool) (hs : s ≠ [])
    (hy : y.length = s.length) (ht : t.length = s.length) :
    (∃ c v, qini_curve y s t = some (c, v) ∧
      v.getLast? = some ((treatedVals y t).sum
        - (ctrlVals y t).sum
          * safeDiv ((treatedVals y t).length : ℚ) ((ctrlVals y t).length : ℚ))) ∧
    (∀ p, p.Perm (List.range s.length) →
      ∃ c v, qini_curve (permute y 0 p) (permute s 0 p) (permute t false p) = some (c, v) ∧
        v.getLast? = some ((treatedVals y t).sum
          - (ctrlVals y t).sum
            * safeDiv ((treatedVals y t).length : ℚ) ((ctrlVals y t).length : ℚ))) := by
  refine ⟨qini_last_val y s t hs hy ht, ?_⟩
  intro p hp
  have hplen2 : p.length = s.length := by simpa using hp.length_eq
  have hn : 1 ≤ s.length := List.length_pos.2 hs
  have hs2 : permute s 0 p ≠ [] := by
    intro h
    have hl := congrArg List.length h
    rw [length_permute] at hl
    simp only [List.length_nil] at hl
    omega
  have hy2 : (permute y 0 p).length = (permute s 0 p).length := by
    rw [length_permute, length_permute]
  have ht2 : (permute t false p).length = (permute s 0 p).length := by
    rw [length_permute, length_permute]
  obtain ⟨c, v, hcv, hlast⟩ :=
    qini_last_val (permute y 0 p) (permute s 0 p) (permute t false p) hs2 hy2 ht2
  refine ⟨c, v, hcv, ?_⟩
  rw [hlast]
  have hpairs : ((permute y 0 p).zip (permute t false p)).Perm (y.zip t) :=
    permute_zip_perm hy ht hp
  have e1 : (treatedVals (permute y 0 p) (permute t false p)).sum = (treatedVals y t).sum :=
    (List.Perm.map Prod.fst (List.Perm.filter _ hpairs)).sum_eq
  have e2 : (ctrlVals (permute y 0 p) (permute t false p)).sum = (ctrlVals y t).sum :=
    (List.Perm.map Prod.fst (List.Perm.filter _ hpairs)).sum_eq
  have e3 : (treatedVals (permute y 0 p) (permute t false p)).length
      = (treatedVals y t).length :=
    (List.Perm.map Prod.fst (List.Perm.filter _ hpairs)).length_eq
  have e4 : (ctrlVals (permute y 0 p) (permute t false p)).length
      = (ctrlVals y t).length :=
    (List.Perm.map Prod.fst (List.Perm.filter _ hpairs)).length_eq
  rw [e1, e2, e3, e4]

/-- Witness for C3 at a concrete input. -/
theorem qini_curve_final_value_witness :
    (([2, 1] : List ℚ) ≠ [] ∧ ([1, 0] : List ℚ).length = ([2, 1] : List ℚ).length ∧
      ([true, false] : List Bool).length = ([2, 1] : List ℚ).length) ∧
    (∃ c v, qini_curve [1, 0] [2, 1] [true, false] = some (c, v) ∧
      v.getLast? = some ((treatedVals [1, 0] [true, false]).sum
        - (ctrlVals [1, 0] [true, false]).sum
          * safeDiv ((treatedVals [1, 0] [true, false]).length : ℚ)
              ((ctrlVals [1, 0] [true, false]).length : ℚ))) :=
  ⟨⟨by decide, by decide, by decide⟩,
    (qini_curve_final_value [1, 0] [2, 1] [true, false]
      (by decide) (by decide) (by decide)).1⟩

lemma firstModeScore_shape (y : List ℚ) (t : List Bool) (ord : List ℕ) (nSize : ℕ) :
    (∃ v, firstModeScore y t ord nSize = .ok v) ∨
      firstModeScore y t ord nSize = .error .nanMean := by
  rcases h1 : meanQ ((((((permute y 0 ord).zip (permute t false ord)).take nSize)).filter
      (fun p => !p.2)).map Prod.fst) with _ | c <;>
    rcases h2 : meanQ ((((((permute y 0 ord).zip (permute t false ord)).take nSize)).filter
        (fun p => p.2)).map Prod.fst) with _ | tm <;>
      simp [firstModeScore, h1, h2]

lemma groupModeScore_shape (y : List ℚ) (t : List Bool) (ord : List ℕ)
    (nCtrl nTrmnt : ℕ) :
    (∃ v, groupModeScore y t ord nCtrl nTrmnt = .ok v) ∨
      groupModeScore y t ord nCtrl nTrmnt = .error .nanMean := by
  rcases h1 : meanQ (((((permute y 0 ord).zip (permute t false ord)).filter
      (fun p => !p.2)).map Prod.fst).take nCtrl) with _ | c <;>
    rcases h2 : meanQ (((((permute y 0 ord).zip (permute t false ord)).filter
        (fun p => p.2)).map Prod.fst).take nTrmnt) with _ | tm <;>
      simp [groupModeScore, h1, h2]

lemma not_kdomain_of_error {u : UErr} (h1 : u ≠ .kRange) (h2 : u ≠ .kKind) :
    ¬ ∃ e, (Except.error u : Except UErr ℚ) = .error e ∧ isKDomainErr e := by
  rintro ⟨e, he, hke⟩
  injection he with h
  subst h
  rcases hke with h | h
  · exact h1 h
  · exact h2 h

lemma not_kdomain_of_shape {r : Except UErr ℚ}
    (hshape : (∃ v, r = .ok v) ∨ r = .error .nanMean) :
    ¬ ∃ e, r = .error e ∧ isKDomainErr e := by
  rcases hshape with ⟨v, hv⟩ | hv
  · rintro ⟨e, he, _⟩
    rw [hv] at he
    exact Except.noConfusion he
  · rw [hv]
    exact not_kdomain_of_error (by intro h; cases h) (by intro h; cases h)

/-- C8 (amended): when both treatment groups are present (so the unconditional
`treatment_counts[1]` read succeeds), `uplift_at_k` raises an error of the
spec's k-domain range-error class exactly when `k` is invalid: an integer `k`
is valid iff `0 < k < N`, a float `k` is valid iff `0 < k < 1`, and any other
numeric kind is always rejected. -/
theorem uplift_at_k_range_error_iff (y s : List ℚ) (t : List Bool) (k : KVal) (avg : Avg)
    (hlen : y.length = s.length ∧ s.length = t.length)
    (hcf : t.contains false = true) (hct : t.contains true = true)
    (havg : avg = Avg.first ∨ avg = Avg.group) :
    (∃ e, uplift_at_k y s t k avg = .error e ∧ isKDomainErr e) ↔ kInvalid k y.length := by
  have hmf : false ∈ t := by simpa using hcf
  have hmt : true ∈ t := by simpa using hct
  have hc0 : (tCounts t)[0]? = some (t.count false) := by
    simp [tCounts, hmf, hmt]
  have hc1 : (tCounts t)[1]? = some (t.count true) := by
    simp [tCounts, hmf, hmt]
  rcases havg with rfl | rfl <;> rcases k with kv | q | _
  · -- first, int
    simp only [uplift_at_k, if_pos hlen, hc0, hc1]
    by_cases hr : (y.length : ℤ) ≤ kv ∨ kv ≤ 0
    · rw [if_pos hr]
      constructor
      · intro _
        rw [kInvalid]
        omega
      · intro _
        exact ⟨.kRange, rfl, Or.inl rfl⟩
    · rw [if_neg hr]
      constructor
      · intro h
        exact absurd h (not_kdomain_of_shape (firstModeScore_shape y t (descIndices s) kv.toNat))
      · intro hki
        rw [kInvalid] at hki
        exact absurd ⟨by omega, by omega⟩ hki
  · -- first, float
    simp only [uplift_at_k, if_pos hlen, hc0, hc1]
    by_cases hr : q ≤ 0 ∨ 1 ≤ q
    · rw [if_pos hr]
      constructor
      · intro _
        rw [kInvalid]
        rintro ⟨h1, h2⟩
        rcases hr with h | h
        · linarith
        · linarith
      · intro _
        exact ⟨.kRange, rfl, Or.inl rfl⟩
    · rw [if_neg hr]
      constructor
      · intro h
        exact absurd h (not_kdomain_of_shape
          (firstModeScore_shape y t (descIndices s) (Int.toNat ⌈(y.length : ℚ) * q⌉)))
      · intro hki
        rw [kInvalid] at hki
        push_neg at hr
        exact absurd ⟨hr.1, hr.2⟩ hki
  · -- first, otherKind
    simp only [uplift_at_k, if_pos hlen, hc0, hc1]
    constructor
    · intro _
      rw [kInvalid]
      trivial
    · intro _
      exact ⟨.kKind, rfl, Or.inr rfl⟩
  · -- group, int
    simp only [uplift_at_k, if_pos hlen, hc0, hc1]
    by_cases hr : (y.length : ℤ) ≤ kv ∨ kv ≤ 0
    · rw [if_pos hr]
      constructor
      · intro _
        rw [kInvalid]
        omega
      · intro _
        exact ⟨.kRange, rfl, Or.inl rfl⟩
    · rw [if_neg hr]
      have hnk : ¬ ∃ e, (if t.count false < kv.toNat then Except.error UErr.capCtrl
          else if t.count true < kv.toNat then Except.error UErr.capTrmnt
          else groupModeScore y t (descIndices s) kv.toNat kv.toNat) = .error e
          ∧ isKDomainErr e := by
        split_ifs with h1 h2
        · exact not_kdomain_of_error (by intro h; cases h) (by intro h; cases h)
        · exact not_kdomain_of_error (by intro h; cases h) (by intro h; cases h)
        · exact not_kdomain_of_shape (groupModeScore_shape y t (descIndices s) kv.toNat kv.toNat)
      constructor
      · intro h
        exact absurd h hnk
      · intro hki
        rw [kInvalid] at hki
        exact absurd ⟨by omega, by omega⟩ hki
  · -- group, float
    simp only [uplift_at_k, if_pos hlen, hc0, hc1]
    by_cases hr : q ≤ 0 ∨ 1 ≤ q
    · rw [if_pos hr]
      constructor
      · intro _
        rw [kInvalid]
        rintro ⟨h1, h2⟩
        rcases hr with h | h
        · linarith
        · linarith
      · intro _
        exact ⟨.kRange, rfl, Or.inl rfl⟩
    · rw [if_neg hr]
      have hnk : ¬ ∃ e, (if t.count false < Int.toNat ⌈(t.count false : ℚ) * q⌉
          then Except.error UErr.capCtrl
          else if t.count true < Int.toNat ⌈(t.count true : ℚ) * q⌉
          then Except.error UErr.capTrmnt
          else groupModeScore y t (descIndices s) (Int.toNat ⌈(t.count false : ℚ) * q⌉)
            (Int.toNat ⌈(t.count true : ℚ) * q⌉)) = .error e ∧ isKDomainErr e := by
        split_ifs with h1 h2
        · exact not_kdomain_of_error (by intro h; cases h) (by intro h; cases h)
        · exact not_kdomain_of_error (by intro h; cases h) (by intro h; cases h)
        · exact not_kdomain_of_shape (groupModeScore_shape y t (descIndices s) _ _)
      constructor
      · intro h
        exact absurd h hnk
      · intro hki
        rw [kInvalid] at hki
        push_neg at hr
        exact absurd ⟨hr.1, hr.2⟩ hki
  · -- group, otherKind
    simp only [uplift_at_k, if_pos hlen, hc0, hc1]
    constructor
    · intro _
      rw [kInvalid]
      trivial
    · intro _
      exact ⟨.kKind, rfl, Or.inr rfl⟩

/-- C8 (counterexample): with a degenerate treatment column (all treated) and
an invalid `k`, `uplift_at_k` raises the IndexError coming from the
unconditional `treatment_counts[1]` read, not the k-domain range error,
because the counts are read before any `k` check; so the claimed equivalence
does not hold over all equal-length inputs. -/
theorem uplift_at_k_range_error_preempted :
    uplift_at_k [1, 1] [1, 2] [true, true] (.int 0) .first = .error .indexErr ∧
    kInvalid (.int 0) ([1, 1] : List ℚ).length ∧
    (Except.error UErr.indexErr : Except UErr ℚ) ≠ .error .kRange ∧
    (Except.error UErr.indexErr : Except UErr ℚ) ≠ .error .kKind := by
  refine ⟨rfl, ?_, by simp, by simp⟩
  rintro ⟨h, _⟩
  exact absurd h (by decide)

/-- Witness for the amended C8: `k = 2.0` (float kind, outside (0, 1)) on a
two-group input is rejected with a k-domain range error. -/
theorem uplift_at_k_range_error_iff_witness :
    ∃ e, uplift_at_k [1, 0] [2, 1] [true, false] (.float 2) .first = .error e ∧
      isKDomainErr e :=
  (uplift_at_k_range_error_iff [1, 0] [2, 1] [true, false] (.float 2) .first
    ⟨by decide, by decide⟩ (by decide) (by decide) (Or.inl rfl)).mpr
    (by rintro ⟨_, h⟩; exact absurd h (by norm_num))

/-- C10: whenever the treatment column holds fewer than two distinct values,
`uplift_at_k` fails with the out-of-bounds `treatment_counts[1]` read before
computing any score, for every `k` and both recognized averaging modes. -/
theorem uplift_at_k_degenerate_treatment (y s : List ℚ) (t : List Bool)
    (hlen : y.length = s.length ∧ s.length = t.length)
    (hdeg : ¬ (t.contains false = true ∧ t.contains true = true))
    (k : KVal) (avg : Avg) (havg : avg = Avg.first ∨ avg = Avg.group) :
    uplift_at_k y s t k avg = .error .indexErr := by
  have hc1 : (tCounts t)[1]? = none := by
    rcases h1 : t.contains false <;> rcases h2 : t.contains true
    · have m1 : ¬ (false ∈ t) := by simpa using h1
      have m2 : ¬ (true ∈ t) := by simpa using h2
      simp [tCounts, m1, m2]
    · have m1 : ¬ (false ∈ t) := by simpa using h1
      have m2 : true ∈ t := by simpa using h2
      simp [tCounts, m1, m2]
    · have m1 : false ∈ t := by simpa using h1
      have m2 : ¬ (true ∈ t) := by simpa using h2
      simp [tCounts, m1, m2]
    · exact absurd ⟨h1, h2⟩ hdeg
  rcases havg with rfl | rfl <;>
    rcases h0 : (tCounts t)[0]? with _ | n0 <;>
      simp [uplift_at_k, hlen, h0, hc1]

/-- Witness for C10 at a concrete all-treated input. -/
theorem uplift_at_k_degenerate_treatment_witness :
    (([1, 1] : List ℚ).length = ([1, 2] : List ℚ).length ∧
      ([1, 2] : List ℚ).length = ([true, true] : List Bool).length) ∧
    uplift_at_k [1, 1] [1, 2] [true, true] (.int 1) .group = .error .indexErr :=
  ⟨⟨by decide, by decide⟩,
    uplift_at_k_degenerate_treatment [1, 1] [1, 2] [true, true]
      ⟨by decide, by decide⟩ (by decide) (.int 1) .group (Or.inr rfl)⟩

lemma count_true_eq_filter (t : List Bool) :
    t.count true = (t.filter (fun b => b)).length := by
  induction t with
  | nil => rfl
  | cons b t ih => cases b <;> simp [List.count_cons, List.filter_cons, ih]

lemma count_false_eq_filter (t : List Bool) :
    t.count false = (t.filter (fun b => !b)).length := by
  induction t with
  | nil => rfl
  | cons b t ih => cases b <;> simp [List.count_cons, List.filter_cons, ih]

lemma length_treatedVals (y : List ℚ) (t : List Bool) (h : y.length = t.length) :
    (treatedVals y t).length = t.count true := by
  have hz := length_filter_zip_snd (fun b => b) y t t.length h
  rw [List.take_of_length_le (by rw [List.length_zip]; omega),
    List.take_of_length_le (le_refl _)] at hz
  rw [treatedVals, List.length_map, hz, count_true_eq_filter]

lemma length_ctrlVals (y : List ℚ) (t : List Bool) (h : y.length = t.length) :
    (ctrlVals y t).length = t.count false := by
  have hz := length_filter_zip_snd (fun b => !b) y t t.length h
  rw [List.take_of_length_le (by rw [List.length_zip]; omega),
    List.take_of_length_le (le_refl _)] at hz
  rw [ctrlVals, List.length_map, hz, count_false_eq_filter]

lemma length_treatedVals_pos (y : List ℚ) (t : List Bool) (h : y.length = t.length)
    (hm : true ∈ t) : 0 < (treatedVals y t).length := by
  rw [length_treatedVals y t h]
  exact List.count_pos_iff.2 hm

lemma length_ctrlVals_pos (y : List ℚ) (t : List Bool) (h : y.length = t.length)
    (hm : false ∈ t) : 0 < (ctrlVals y t).length := by
  rw [length_ctrlVals y t h]
  exact List.count_pos_iff.2 hm

lemma firstModeScore_full (y s : List ℚ) (t : List Bool)
    (hy : y.length = s.length) (ht : t.length = s.length)
    (hmf : false ∈ t) (hmt : true ∈ t) :
    firstModeScore y t (descIndices s) y.length =
      .ok ((treatedVals y t).sum / ((treatedVals y t).length : ℚ)
        - (ctrlVals y t).sum / ((ctrlVals y t).length : ℚ)) := by
  have hyt : y.length = t.length := hy.trans ht.symm
  have hpairs : ((permute y 0 (descIndices s)).zip
      (permute t false (descIndices s))).Perm (y.zip t) :=
    permute_zip_perm hy ht (descIndices_perm s)
  have hfull : ((permute y 0 (descIndices s)).zip
      (permute t false (descIndices s))).take y.length
      = (permute y 0 (descIndices s)).zip (permute t false (descIndices s)) := by
    apply List.take_of_length_le
    rw [List.length_zip, length_permute, length_permute, length_descIndices]
    omega
  have hcperm : ((((permute y 0 (descIndices s)).zip
      (permute t false (descIndices s))).filter (fun p => !p.2)).map Prod.fst).Perm
      (ctrlVals y t) :=
    List.Perm.map _ (List.Perm.filter _ hpairs)
  have htperm : ((((permute y 0 (descIndices s)).zip
      (permute t false (descIndices s))).filter (fun p => p.2)).map Prod.fst).Perm
      (treatedVals y t) :=
    List.Perm.map _ (List.Perm.filter _ hpairs)
  have hclen0 : (((((permute y 0 (descIndices s)).zip
      (permute t false (descIndices s))).filter (fun p => !p.2)).map Prod.fst)).length ≠ 0 := by
    rw [hcperm.length_eq]
    have := length_ctrlVals_pos y t hyt hmf
    omega
  have htlen0 : (((((permute y 0 (descIndices s)).zip
      (permute t false (descIndices s))).filter (fun p => p.2)).map Prod.fst)).length ≠ 0 := by
    rw [htperm.length_eq]
    have := length_treatedVals_pos y t hyt hmt
    omega
  have h1 : meanQ ((((permute y 0 (descIndices s)).zip
      (permute t false (descIndices s))).filter (fun p => !p.2)).map Prod.fst)
      = some ((ctrlVals y t).sum / ((ctrlVals y t).length : ℚ)) := by
    rw [meanQ, if_neg hclen0, hcperm.sum_eq, hcperm.length_eq]
  have h2 : meanQ ((((permute y 0 (descIndices s)).zip
      (permute t false (descIndices s))).filter (fun p => p.2)).map Prod.fst)
      = some ((treatedVals y t).sum / ((treatedVals y t).length : ℚ)) := by
    rw [meanQ, if_neg htlen0, htperm.sum_eq, htperm.length_eq]
  simp only [firstModeScore, hfull, h1, h2]

lemma groupModeScore_full (y s : List ℚ) (t : List Bool)
    (hy : y.length = s.length) (ht : t.length = s.length)
    (hmf : false ∈ t) (hmt : true ∈ t) :
    groupModeScore y t (descIndices s) (t.count false) (t.count true) =
      .ok ((treatedVals y t).sum / ((treatedVals y t).length : ℚ)
        - (ctrlVals y t).sum / ((ctrlVals y t).length : ℚ)) := by
  have hyt : y.length = t.length := hy.trans ht.symm
  have hpairs : ((permute y 0 (descIndices s)).zip
      (permute t false (descIndices s))).Perm (y.zip t) :=
    permute_zip_perm hy ht (descIndices_perm s)
  have hcperm : ((((permute y 0 (descIndices s)).zip
      (permute t false (descIndices s))).filter (fun p => !p.2)).map Prod.fst).Perm
      (ctrlVals y t) :=
    List.Perm.map _ (List.Perm.filter _ hpairs)
  have htperm : ((((permute y 0 (descIndices s)).zip
      (permute t false (descIndices s))).filter (fun p => p.2)).map Prod.fst).Perm
      (treatedVals y t) :=
    List.Perm.map _ (List.Perm.filter _ hpairs)
  have hctake : (((((permute y 0 (descIndices s)).zip
      (permute t false (descIndices s))).filter (fun p => !p.2)).map Prod.fst)).take
        (t.count false)
      = ((((permute y 0 (descIndices s)).zip
        (permute t false (descIndices s))).filter (fun p => !p.2)).map Prod.fst) := by
    apply List.take_of_length_le
    rw [hcperm.length_eq, length_ctrlVals y t hyt]
  have httake : (((((permute y 0 (descIndices s)).zip
      (permute t false (descIndices s))).filter (fun p => p.2)).map Prod.fst)).take
        (t.count true)
      = ((((permute y 0 (descIndices s)).zip
        (permute t false (descIndices s))).filter (fun p => p.2)).map Prod.fst) := by
    apply List.take_of_length_le
    rw [htperm.length_eq, length_treatedVals y t hyt]
  have hclen0 : (((((permute y 0 (descIndices s)).zip
      (permute t false (descIndices s))).filter (fun p => !p.2)).map Prod.fst)).length ≠ 0 := by
    rw [hcperm.length_eq]
    have := length_ctrlVals_pos y t hyt hmf
    omega
  have htlen0 : (((((permute y 0 (descIndices s)).zip
      (permute t false (descIndices s))).filter (fun p => p.2)).map Prod.fst)).length ≠ 0 := by
    rw [htperm.length_eq]
    have := length_treatedVals_pos y t hyt hmt
    omega
  have h1 : meanQ ((((permute y 0 (descIndices s)).zip
      (permute t false (descIndices s))).filter (fun p => !p.2)).map Prod.fst)
      = some ((ctrlVals y t).sum / ((ctrlVals y t).length : ℚ)) := by
    rw [meanQ, if_neg hclen0, hcperm.sum_eq, hcperm.length_eq]
  have h2 : meanQ ((((permute y 0 (descIndices s)).zip
      (permute t false (descIndices s))).filter (fun p => p.2)).map Prod.fst)
      = some ((treatedVals y t).sum / ((treatedVals y t).length : ℚ)) := by
    rw [meanQ, if_neg htlen0, htperm.sum_eq, htperm.length_eq]
  simp only [groupModeScore, hctake, httake, h1, h2]

lemma ceil_mul_eq_self {n m : ℕ} {q : ℚ} (hn : 1 ≤ n) (hm : 1 ≤ m) (hmn : m ≤ n)
    (hq1 : ((n : ℚ) - 1) / (n : ℚ) < q) (hq2 : q < 1) :
    ⌈(m : ℚ) * q⌉ = (m : ℤ) := by
  rw [Int.ceil_eq_iff]
  have hnpos : (0 : ℚ) < n := by exact_mod_cast hn
  have hmpos : (0 : ℚ) < m := by exact_mod_cast hm
  have hmn2 : (m : ℚ) ≤ n := by exact_mod_cast hmn
  constructor
  · push_cast
    have hlow : (m : ℚ) - 1 ≤ (m : ℚ) * (((n : ℚ) - 1) / n) := by
      rw [← mul_div_assoc, le_div_iff₀ hnpos]
      nlinarith
    have hmul : (m : ℚ) * (((n : ℚ) - 1) / n) < (m : ℚ) * q :=
      mul_lt_mul_of_pos_left hq1 hmpos
    linarith
  · push_cast
    nlinarith

/-- C9 (counterexample): `k = 1.0` has float kind, and the range check rejects
any float with `k >= 1`, so the call raises the range error in both averaging
modes instead of returning the overall mean difference. -/
theorem uplift_at_k_full_population_rejected :
    uplift_at_k [1, 0] [2, 1] [true, false] (.float 1) .first = .error .kRange ∧
    uplift_at_k [1, 0] [2, 1] [true, false] (.float 1) .group = .error .kRange :=
  ⟨rfl, rfl⟩

/-- C9 (amended): `k = 1.0` itself is rejected; the nearest expressible
version of the claim holds for any fractional `k` strictly between
`(N - 1) / N` and 1: every window then covers its whole population, and both
averaging modes return the overall treated mean outcome minus the overall
control mean outcome. -/
theorem uplift_at_k_near_full_population (y s : List ℚ) (t : List Bool) (q : ℚ)
    (hlen : y.length = s.length ∧ s.length = t.length)
    (hcf : t.contains false = true) (hct : t.contains true = true)
    (hq1 : ((y.length : ℚ) - 1) / (y.length : ℚ) < q) (hq2 : q < 1) :
    uplift_at_k y s t (.float q) .first =
      .ok ((treatedVals y t).sum / ((treatedVals y t).length : ℚ)
        - (ctrlVals y t).sum / ((ctrlVals y t).length : ℚ)) ∧
    uplift_at_k y s t (.float q) .group =
      .ok ((treatedVals y t).sum / ((treatedVals y t).length : ℚ)
        - (ctrlVals y t).sum / ((ctrlVals y t).length : ℚ)) := by
  have hmf : false ∈ t := by simpa using hcf
  have hmt : true ∈ t := by simpa using hct
  have htne : t ≠ [] := fun h => by rw [h] at hmf; cases hmf
  have hn1 : 1 ≤ y.length := by
    have := List.length_pos.2 htne
    omega
  have hnQ : (1 : ℚ) ≤ (y.length : ℚ) := by exact_mod_cast hn1
  have hq0 : 0 < q := by
    have h0 : (0 : ℚ) ≤ ((y.length : ℚ) - 1) / (y.length : ℚ) :=
      div_nonneg (by linarith) (by linarith)
    linarith
  have hr : ¬ (q ≤ 0 ∨ 1 ≤ q) := by
    push_neg
    exact ⟨hq0, hq2⟩
  have hc0 : (tCounts t)[0]? = some (t.count false) := by
    simp [tCounts, hmf, hmt]
  have hc1 : (tCounts t)[1]? = some (t.count true) := by
    simp [tCounts, hmf, hmt]
  have hcfpos : 1 ≤ t.count false := List.count_pos_iff.2 hmf
  have hctpos : 1 ≤ t.count true := List.count_pos_iff.2 hmt
  have hcfle : t.count false ≤ y.length := by
    have := List.count_le_length false t
    omega
  have hctle : t.count true ≤ y.length := by
    have := List.count_le_length true t
    omega
  have hceiln : Int.toNat ⌈(y.length : ℚ) * q⌉ = y.length := by
    rw [ceil_mul_eq_self hn1 hn1 (le_refl _) hq1 hq2, Int.toNat_natCast]
  have hceilf : Int.toNat ⌈(t.count false : ℚ) * q⌉ = t.count false := by
    rw [ceil_mul_eq_self hn1 hcfpos hcfle hq1 hq2, Int.toNat_natCast]
  have hceilt : Int.toNat ⌈(t.count true : ℚ) * q⌉ = t.count true := by
    rw [ceil_mul_eq_self hn1 hctpos hctle hq1 hq2, Int.toNat_natCast]
  constructor
  · simp only [uplift_at_k, if_pos hlen, hc0, hc1]
    rw [if_neg hr, hceiln]
    exact firstModeScore_full y s t hlen.1 hlen.2.symm hmf hmt
  · simp only [uplift_at_k, if_pos hlen, hc0, hc1]
    rw [if_neg hr, hceilf, hceilt, if_neg (lt_irrefl _), if_neg (lt_irrefl _)]
    exact groupModeScore_full y s t hlen.1 hlen.2.symm hmf hmt

/-- Witness for the amended C9 at a concrete input with `q = 3/4` (above
`(N - 1) / N = 1/2` for `N = 2`). -/
theorem uplift_at_k_near_full_population_witness :
    uplift_at_k [1, 0] [2, 1] [true, false] (.float (3 / 4)) .first =
      .ok ((treatedVals [1, 0] [true, false]).sum
          / ((treatedVals [1, 0] [true, false]).length : ℚ)
        - (ctrlVals [1, 0] [true, false]).sum
          / ((ctrlVals [1, 0] [true, false]).length : ℚ)) :=
  (uplift_at_k_near_full_population [1, 0] [2, 1] [true, false] (3 / 4)
    ⟨by decide, by decide⟩ (by decide) (by decide) (by norm_num) (by norm_num)).1
